import Mathlib

/-!
Verification of the agent tutorial repository (llama_tutorial).

The repository builds small LlamaIndex agents: arithmetic tools
(`1_basic_agent.py`), a persistent chat session (`3_state.py`),
a name-remembering tool with persisted state (`3a_tools_and_state.py`),
and streaming (`4_streaming.py`).

We shallowly embed the data model and the operations the claims need:
- JSON scalar values, the state mapping (a Python dict modelled as an
  association list with the assignment semantics of Python dicts),
- the Session Context and its versioned serialized record,
- the persistence functions `save_context` / `load_context` from the source,
- the `set_name` tool and the arithmetic tools from the source,
- the chat loop from the source, as a trace of events,
- the Turn Executor state machine (library code, modelled from the spec),
- the byte-level write behaviour of `save_context` (a truncating open
  followed by sequential writes), to examine atomicity.
-/

namespace LlamaTut

/-- JSON-representable scalar values, covering every value the repository
stores in context state or passes as a tool argument. -/
inductive Json where
  | str (s : String)
  | num (q : ℚ)
  | bool (b : Bool)
  | null
deriving DecidableEq

/-- The context state: a Python dict from string keys to JSON values,
modelled as an association list in insertion order. -/
def StateMap := List (String × Json)

instance : DecidableEq StateMap := by
  unfold StateMap
  infer_instance

/-- Python dict assignment `d[k] = v`: replace the value in place if the key
exists, otherwise append the new binding at the end. -/
def dictSet : StateMap → String → Json → StateMap
  | [], k, v => [(k, v)]
  | (k₀, v₀) :: rest, k, v =>
      if k₀ = k then (k, v) :: rest else (k₀, v₀) :: dictSet rest k v

/-- Python dict lookup `d[k]` / `d.get(k)`. -/
def dictGet : StateMap → String → Option Json
  | [], _ => none
  | (k₀, v₀) :: rest, k => if k₀ = k then some v₀ else dictGet rest k

/-- Message roles in the conversation history. -/
inductive Role where
  | user
  | assistant
  | tool
deriving DecidableEq

/-- A message of the conversation history: role and content. -/
structure Message where
  role : Role
  content : String
deriving DecidableEq

/-- The Turn Executor states named by the spec. -/
inductive TurnState where
  | awaitingOracle
  | executingTools
  | streamingFinal
  | done
  | failed
deriving DecidableEq

/-- Run metadata of a Session Context: iteration count and turn status. -/
structure Metadata where
  iterationCount : Nat
  turnStatus : TurnState
deriving DecidableEq

/-- The Session Context: conversation history, state mapping, metadata. -/
structure Context where
  messages : List Message
  state : StateMap
  metadata : Metadata
deriving DecidableEq

/-- The serialized, versioned record shape: version, messages, state,
metadata. -/
structure Record where
  version : String
  messages : List Message
  state : StateMap
  metadata : Metadata
deriving DecidableEq

/-- Modelled from the spec: the version tag the current engine writes.
The serializer (`Context.to_dict` with `JsonSerializer`) is llama_index
library code absent from src/. -/
def CONTEXT_VERSION : String := "1"

/-- Modelled from the spec: `Context.to_dict` serializes a context into the
versioned record \x7bversion, messages[], state\x7b\x7d, metadata\x7b\x7d\x7d. -/
def to_dict (ctx : Context) : Record :=
  ⟨CONTEXT_VERSION, ctx.messages, ctx.state, ctx.metadata⟩

/-- Load-time failures of the deserializer. -/
inductive LoadError where
  | unsupportedVersion
deriving DecidableEq

/-- Modelled from the spec: `Context.from_dict` rebuilds a context from a
record, rejecting any record whose version is unrecognized with
`UnsupportedVersion` rather than parsing it best-effort. -/
def from_dict (r : Record) : Except LoadError Context :=
  if r.version = CONTEXT_VERSION then
    Except.ok ⟨r.messages, r.state, r.metadata⟩
  else
    Except.error LoadError.unsupportedVersion

/-- The initial state of the workflow in `3a_tools_and_state.py`:
`initial_state=\x7b"name": "unset"\x7d`. -/
def initial_state : StateMap := [("name", Json.str "unset")]

/-- A brand-new Context for the workflow: empty history, the workflow
initial state, zeroed metadata (`Context(workflow)` in the source). -/
def freshContext : Context :=
  ⟨[], initial_state, ⟨0, TurnState.done⟩⟩

/-- Function `save_context` from `3_state.py` / `3a_tools_and_state.py`: serialize
the context with `to_dict` and write the record to `history.json`. The
record written is returned; the byte-level write is modelled separately. -/
def save_context (ctx : Context) : Record :=
  to_dict ctx

/-- Function `load_context` from `3_state.py` / `3a_tools_and_state.py`: if
`history.json` exists, parse it and rebuild the context with `from_dict`;
otherwise start a new context. The durable file is passed as
`none` (missing) or `some r` (present with parsed record `r`). -/
def load_context (file : Option Record) : Except LoadError Context :=
  match file with
  | some r => from_dict r
  | none => Except.ok freshContext

/-- C1 -- Snapshot/restore round-trips exactly: restoring a serialized
context succeeds and loses nothing, and serializing the restored context
yields a record equal to the first serialization. -/
theorem snapshot_restore_roundtrip (ctx : Context) :
    from_dict (to_dict ctx) = Except.ok ctx ∧
    (from_dict (to_dict ctx)).map to_dict = Except.ok (to_dict ctx) := by
  constructor <;> simp [to_dict, from_dict, Except.map]

/-- C3 -- The persisted record carries an explicit version field, and
loading any record whose version is unrecognized fails with
`UnsupportedVersion` instead of a best-effort parse. -/
theorem versioned_record_rejects_unknown_version :
    (∀ ctx : Context, (to_dict ctx).version = CONTEXT_VERSION) ∧
    (∀ r : Record, r.version ≠ CONTEXT_VERSION →
      from_dict r = Except.error LoadError.unsupportedVersion) := by
  constructor
  · intro ctx; rfl
  · intro r h
    simp [from_dict, h]

/-- Witness for C3 at a concrete record with version "0". -/
theorem versioned_record_rejects_unknown_version_witness :
    from_dict ⟨"0", [], [], ⟨0, TurnState.done⟩⟩ =
      Except.error LoadError.unsupportedVersion :=
  versioned_record_rejects_unknown_version.2
    ⟨"0", [], [], ⟨0, TurnState.done⟩⟩ (by decide)

/-- C6 -- `load_context` returns the restored context whenever the durable
snapshot file exists, and a brand-new empty Context otherwise. -/
theorem load_context_two_outcomes :
    load_context none = Except.ok freshContext ∧
    (∀ ctx : Context, load_context (some (save_context ctx)) = Except.ok ctx) := by
  constructor
  · rfl
  · intro ctx
    simp [load_context, save_context, to_dict, from_dict]

/-- The `set_name` tool from `3a_tools_and_state.py`: read the state dict
from the context, assign `state["name"] = name`, write it back, and return
the confirmation f-string `f"Name set to \x7bname\x7d"`. Returns the updated
state together with the return value of the tool. -/
def set_name (state : StateMap) (name : String) : StateMap × String :=
  (dictSet state "name" (Json.str name), "Name set to " ++ name)

/-- Assigning key `k` leaves the lookup of every other key unchanged. -/
theorem dictGet_dictSet_ne (st : StateMap) (k k₁ : String) (v : Json)
    (h : k₁ ≠ k) : dictGet (dictSet st k v) k₁ = dictGet st k₁ := by
  induction st with
  | nil =>
      simp only [dictSet, dictGet]
      rw [if_neg (fun h₀ => h h₀.symm)]
  | cons hd tl ih =>
      obtain ⟨k₀, v₀⟩ := hd
      by_cases hk : k₀ = k
      · subst hk
        simp only [dictSet, if_pos rfl, dictGet]
        rw [if_neg (fun h₀ => h h₀.symm), if_neg (fun h₀ => h h₀.symm)]
      · simp only [dictSet, if_neg hk, dictGet]
        by_cases hk₁ : k₀ = k₁
        · simp [hk₁]
        · simp [hk₁, ih]

/-- Assigning key `k` makes its lookup the assigned value. -/
theorem dictGet_dictSet_self (st : StateMap) (k : String) (v : Json) :
    dictGet (dictSet st k v) k = some v := by
  induction st with
  | nil => simp [dictSet, dictGet]
  | cons hd tl ih =>
      obtain ⟨k₀, v₀⟩ := hd
      by_cases hk : k₀ = k
      · simp [dictSet, hk, dictGet]
      · simp [dictSet, hk, dictGet, ih]

/-- C9 -- `set_name` modifies only the "name" key of the state: every other
key is unchanged, "name" maps to the given name, and the return value is
exactly "Name set to " followed by the name. -/
theorem set_name_frame (st : StateMap) (name k : String)
    (h : k ≠ "name") :
    dictGet (set_name st name).1 k = dictGet st k ∧
    dictGet (set_name st name).1 "name" = some (Json.str name) ∧
    (set_name st name).2 = "Name set to " ++ name :=
  ⟨dictGet_dictSet_ne st "name" k (Json.str name) h,
   dictGet_dictSet_self st "name" (Json.str name), rfl⟩

/-- Witness for C9 at a concrete two-key state. -/
theorem set_name_frame_witness :
    dictGet (set_name [("name", Json.str "unset"), ("city", Json.str "Delhi")] "Ayan").1 "city" =
      dictGet [("name", Json.str "unset"), ("city", Json.str "Delhi")] "city" ∧
    dictGet (set_name [("name", Json.str "unset"), ("city", Json.str "Delhi")] "Ayan").1 "name" =
      some (Json.str "Ayan") ∧
    (set_name [("name", Json.str "unset"), ("city", Json.str "Delhi")] "Ayan").2 =
      "Name set to Ayan" :=
  set_name_frame [("name", Json.str "unset"), ("city", Json.str "Delhi")]
    "Ayan" "city" (by decide)

/-- C2 -- From the initial state \x7b"name": "unset"\x7d, `set_name "Ayan"`
leaves the state equal to \x7b"name": "Ayan"\x7d, and that state survives a
`save_context` / `load_context` cycle, so a later turn can read the stored
name from state without re-invoking `set_name`. -/
theorem set_name_ayan_persists :
    (set_name initial_state "Ayan").1 = [("name", Json.str "Ayan")] ∧
    (∀ msgs md, load_context (some (save_context ⟨msgs, (set_name initial_state "Ayan").1, md⟩)) =
      Except.ok ⟨msgs, [("name", Json.str "Ayan")], md⟩) ∧
    dictGet (set_name initial_state "Ayan").1 "name" = some (Json.str "Ayan") := by
  refine ⟨rfl, ?_, rfl⟩
  intro msgs md
  simp [load_context, save_context, to_dict, from_dict, initial_state, set_name, dictSet]

/-- Round a rational to the nearest integer, ties to even: the IEEE 754
rounding rule used by Python float (binary64) arithmetic. -/
def roundHalfEven (x : ℚ) : ℤ :=
  if Int.fract x < 1 / 2 then ⌊x⌋
  else if 1 / 2 < Int.fract x then ⌊x⌋ + 1
  else if 2 ∣ ⌊x⌋ then ⌊x⌋ else ⌊x⌋ + 1

/-- Round a rational to IEEE binary64 (Python float) precision: scale to 53
significant bits and round half to even. This models the significand
rounding of every finite double the repository computes; the bounded
exponent range of binary64 (overflow to infinity near 2^1024, subnormal
loss below 2^-1022) is far outside the scenarios and not modelled. -/
def roundDouble (q : ℚ) : ℚ :=
  if q = 0 then 0
  else
    (roundHalfEven (q / 2 ^ (Int.log 2 |q| - 52)) : ℚ) *
      2 ^ (Int.log 2 |q| - 52)

/-- Function `multiply` from `1_basic_agent.py`: multiply two numbers and
return the product. Python floats: the exact product of the operands,
rounded to binary64. -/
def multiply (a b : ℚ) : ℚ := roundDouble (a * b)

/-- Function `add` from `1_basic_agent.py`: add two numbers and return the
sum. Python floats: the exact sum of the operands, rounded to binary64. -/
def add (a b : ℚ) : ℚ := roundDouble (a + b)

/-- Rounding an integer is the identity. -/
theorem roundHalfEven_intCast (n : ℤ) : roundHalfEven (n : ℚ) = n := by
  simp [roundHalfEven, Int.fract_intCast]

/-- Values representable in 53 significant bits are fixed points of
binary64 rounding: rounding loses nothing exactly when the value fits. -/
theorem roundDouble_eq_self (m e : ℤ) (hm : |m| < 2 ^ 53) :
    roundDouble ((m : ℚ) * 2 ^ e) = (m : ℚ) * 2 ^ e := by
  rcases eq_or_ne m 0 with hm0 | hm0
  · simp [hm0, roundDouble]
  · have hq0 : ((m : ℚ) * 2 ^ e) ≠ 0 :=
      mul_ne_zero (Int.cast_ne_zero.mpr hm0) (zpow_ne_zero e two_ne_zero)
    have hlt : |(m : ℚ) * 2 ^ e| < ((2 : ℕ) : ℚ) ^ (e + 53) := by
      have h2e : (0 : ℚ) < 2 ^ e := by positivity
      rw [abs_mul, abs_of_pos h2e]
      have h1 : |(m : ℚ)| < (2 : ℚ) ^ (53 : ℕ) := by
        rw [← Int.cast_abs]
        exact_mod_cast hm
      calc |(m : ℚ)| * 2 ^ e < (2 : ℚ) ^ (53 : ℕ) * 2 ^ e :=
              mul_lt_mul_of_pos_right h1 h2e
        _ = ((2 : ℕ) : ℚ) ^ (e + 53) := by
              push_cast
              rw [← zpow_natCast (2 : ℚ) 53, ← zpow_add₀ (two_ne_zero : (2 : ℚ) ≠ 0)]
              congr 1
              omega
    have hlog : Int.log 2 |(m : ℚ) * 2 ^ e| < e + 53 :=
      (Int.lt_zpow_iff_log_lt (by norm_num) (abs_pos.mpr hq0)).mp hlt
    set L := Int.log 2 |(m : ℚ) * 2 ^ e| with hLdef
    have hd0 : 0 ≤ e - (L - 52) := by omega
    set d : ℕ := (e - (L - 52)).toNat with hddef
    have hd : (d : ℤ) = e - (L - 52) := Int.toNat_of_nonneg hd0
    have hx : ((m : ℚ) * 2 ^ e) / 2 ^ (L - 52) = ((m * 2 ^ d : ℤ) : ℚ) := by
      have hee : e = (d : ℤ) + (L - 52) := by omega
      rw [div_eq_iff (zpow_ne_zero _ (two_ne_zero : (2 : ℚ) ≠ 0))]
      push_cast
      rw [← zpow_natCast (2 : ℚ) d, mul_assoc,
        ← zpow_add₀ (two_ne_zero : (2 : ℚ) ≠ 0), ← hee]
    simp only [roundDouble, if_neg hq0, ← hLdef]
    rw [hx, roundHalfEven_intCast, ← hx,
      div_mul_cancel₀ _ (zpow_ne_zero _ (two_ne_zero : (2 : ℚ) ≠ 0))]

/-- A structured tool-call request from the oracle: tool name and named
arguments. -/
structure ToolCall where
  name : String
  args : List (String × Json)

/-- One oracle response: either a final textual answer or a batch of
tool-call requests. -/
inductive OracleResponse where
  | final (text : String)
  | tools (calls : List ToolCall)

/-- Whether an oracle response is a tool-call batch (not a final answer). -/
def isToolBatch : OracleResponse → Bool
  | OracleResponse.final _ => false
  | OracleResponse.tools _ => true

/-- A tool handler: named arguments and current state in, updated state and
result value out; `none` models a handler-raised error. -/
def Handler := List (String × Json) → StateMap → Option (StateMap × Json)

/-- The Capability Registry: a closed, statically built mapping from tool
name to handler. -/
def Registry := List (String × Handler)

/-- Operation `resolve(name)` on the registry. -/
def regResolve : Registry → String → Option Handler
  | [], _ => none
  | (n, h) :: rest, name => if n = name then some h else regResolve rest name

/-- Errors that end a turn. -/
inductive TurnError where
  | stepLimitExceeded
  | llmTransport
deriving DecidableEq

/-- The outcome of one turn. -/
inductive TurnOutcome where
  | done (answer : String)
  | failed (e : TurnError)
deriving DecidableEq

/-- Render a JSON scalar for a tool-result message. -/
def renderJson : Json → String
  | Json.str s => "\x22" ++ s ++ "\x22"
  | Json.num q => toString q
  | Json.bool true => "true"
  | Json.bool false => "false"
  | Json.null => "null"

/-- Append one message to the history of a context. -/
def appendMsg (ctx : Context) (m : Message) : Context :=
  ⟨ctx.messages ++ [m], ctx.state, ctx.metadata⟩

/-- Modelled from the spec: `EXECUTING_TOOLS` dispatches one batch of
requested calls, in request order. An unresolved name is recorded as a
`CapabilityNotFound` tool-error message (not fatal); a resolved call runs
its handler, records the result as a tool message, and applies the state
update. -/
def dispatchBatch (reg : Registry) (calls : List ToolCall) (ctx : Context) : Context :=
  calls.foldl (fun c call =>
    match regResolve reg call.name with
    | none => appendMsg c ⟨Role.tool, "CapabilityNotFound: " ++ call.name⟩
    | some h =>
        match h call.args c.state with
        | none => appendMsg c ⟨Role.tool, call.name ++ " = ToolExecutionError"⟩
        | some (st, res) =>
            ⟨c.messages ++ [⟨Role.tool, call.name ++ " = " ++ renderJson res⟩], st, c.metadata⟩)
    ctx

/-- Execution configuration of the Turn Executor; `max_steps` defaults
to 10. -/
structure ExecConfig where
  max_steps : Nat := 10

/-- Modelled from the spec: the Turn Executor loop. `oracle` scripts the
successive responses of the oracle; `entries` counts `AWAITING_ORACLE` entries so
far. An attempt that would exceed `maxSteps` entries deterministically fails
with `StepLimitExceeded`; a final answer is appended and ends the turn
`DONE`; a tool batch is dispatched in request order and the loop re-enters
`AWAITING_ORACLE`; an exhausted oracle script is a transport fault. Returns
(total `AWAITING_ORACLE` entries, outcome, resulting context). -/
def runTurn (maxSteps : Nat) (reg : Registry) :
    List OracleResponse → Context → Nat → Nat × TurnOutcome × Context
  | [], ctx, entries =>
      if maxSteps ≤ entries then
        (entries, TurnOutcome.failed TurnError.stepLimitExceeded, ctx)
      else
        (entries + 1, TurnOutcome.failed TurnError.llmTransport, ctx)
  | OracleResponse.final t :: _, ctx, entries =>
      if maxSteps ≤ entries then
        (entries, TurnOutcome.failed TurnError.stepLimitExceeded, ctx)
      else
        (entries + 1, TurnOutcome.done t, appendMsg ctx ⟨Role.assistant, t⟩)
  | OracleResponse.tools calls :: rest, ctx, entries =>
      if maxSteps ≤ entries then
        (entries, TurnOutcome.failed TurnError.stepLimitExceeded, ctx)
      else
        runTurn maxSteps reg rest (dispatchBatch reg calls ctx) (entries + 1)

/-- Registry handler wrapping `multiply`: reads numeric arguments `a`, `b`
and returns their product; the state is untouched. -/
def multiply_handler : Handler := fun args st =>
  match dictGet args "a", dictGet args "b" with
  | some (Json.num a), some (Json.num b) => some (st, Json.num (multiply a b))
  | _, _ => none

/-- Registry handler wrapping `add`: reads numeric arguments `a`, `b` and
returns their sum; the state is untouched. -/
def add_handler : Handler := fun args st =>
  match dictGet args "a", dictGet args "b" with
  | some (Json.num a), some (Json.num b) => some (st, Json.num (add a b))
  | _, _ => none

/-- The registry of `1_basic_agent.py`: the `multiply` and `add` tools. -/
def scenarioB_registry : Registry :=
  [("multiply", multiply_handler), ("add", add_handler)]

/-- Scenario B oracle script: request `multiply(2,4)`, then `add(20,8)`,
then answer "28". -/
def scenarioB_oracle : List OracleResponse :=
  [OracleResponse.tools [⟨"multiply", [("a", Json.num 2), ("b", Json.num 4)]⟩],
   OracleResponse.tools [⟨"add", [("a", Json.num 20), ("b", Json.num 8)]⟩],
   OracleResponse.final "28"]

/-- Scenario B starting context: the user question in history. -/
def scenarioB_start : Context :=
  ⟨[⟨Role.user, "What is 20+(2*4)?"⟩], [], ⟨0, TurnState.awaitingOracle⟩⟩

/-- The fixed rounding of the tie 2^53 + 1: it needs 54 significant bits,
and round-half-even sends it back down to 2^53 (even significand). -/
theorem roundDouble_two_pow_53_add_one :
    roundDouble (((9007199254740993 : ℕ) : ℚ)) = (2 : ℚ) ^ 53 := by
  have hlog : Int.log 2 ((9007199254740993 : ℕ) : ℚ) = 53 := by
    rw [Int.log_natCast]
    have h53 : Nat.log 2 9007199254740993 = 53 :=
      Nat.log_eq_of_pow_le_of_lt_pow (by norm_num) (by norm_num)
    exact_mod_cast congrArg (fun n : ℕ => (n : ℤ)) h53
  have hne : ((9007199254740993 : ℕ) : ℚ) ≠ 0 := by norm_num
  have habs : |((9007199254740993 : ℕ) : ℚ)| = ((9007199254740993 : ℕ) : ℚ) :=
    abs_of_pos (by norm_num)
  have hfl : ⌊((9007199254740993 : ℕ) : ℚ) / 2 ^ (1 : ℤ)⌋ = 4503599627370496 := by
    rw [zpow_one, Int.floor_eq_iff]
    constructor <;> push_cast <;> norm_num
  have hfr : Int.fract (((9007199254740993 : ℕ) : ℚ) / 2 ^ (1 : ℤ)) = 1 / 2 := by
    simp only [Int.fract, hfl]
    push_cast
    norm_num
  have hrhe : roundHalfEven (((9007199254740993 : ℕ) : ℚ) / 2 ^ (1 : ℤ)) =
      4503599627370496 := by
    simp only [roundHalfEven, hfr, hfl]
    norm_num
  simp only [roundDouble, if_neg hne, habs, hlog]
  norm_num at hrhe ⊢
  rw [hrhe]
  push_cast
  norm_num

/-- C7 counterexample -- float addition is not exact arithmetic for every
pair of numbers: at a = 2^53 and b = 1 (both exactly representable
doubles, as in Python) `add` returns 2^53, not the exact sum 2^53 + 1. -/
theorem add_not_exact_on_floats :
    add (2 ^ 53) 1 = (2 ^ 53 : ℚ) ∧ add (2 ^ 53) 1 ≠ (2 ^ 53 : ℚ) + 1 := by
  have hsum : (2 ^ 53 : ℚ) + 1 = ((9007199254740993 : ℕ) : ℚ) := by norm_num
  have h1 : add (2 ^ 53) 1 = (2 ^ 53 : ℚ) := by
    show roundDouble ((2 ^ 53 : ℚ) + 1) = (2 ^ 53 : ℚ)
    rw [hsum, roundDouble_two_pow_53_add_one]
  refine ⟨h1, ?_⟩
  rw [h1]
  norm_num

/-- C7 -- (amended) The arithmetic capabilities compute IEEE binary64
float arithmetic: the exact product/sum of the operands rounded to 53
significant bits, round half to even. Results are exact exactly when the
true result is representable -- in particular on integer values below
2^53 -- so `multiply 2 4 = 8` and `add 20 8 = 28` hold exactly, and the
Scenario B turn ends DONE with answer "28", the multiply result recorded
in history before the add result. -/
theorem arithmetic_tools_float_exactness :
    (∀ a b : ℚ, (∃ m e : ℤ, |m| < 2 ^ 53 ∧ a * b = (m : ℚ) * 2 ^ e) →
      multiply a b = a * b) ∧
    (∀ a b : ℚ, (∃ m e : ℤ, |m| < 2 ^ 53 ∧ a + b = (m : ℚ) * 2 ^ e) →
      add a b = a + b) ∧
    (∀ a b : ℤ, |a * b| < 2 ^ 53 →
      multiply (a : ℚ) (b : ℚ) = ((a * b : ℤ) : ℚ)) ∧
    (∀ a b : ℤ, |a + b| < 2 ^ 53 →
      add (a : ℚ) (b : ℚ) = ((a + b : ℤ) : ℚ)) ∧
    multiply 2 4 = 8 ∧ add 20 8 = 28 ∧ add 20 (multiply 2 4) = 28 ∧
    runTurn ({} : ExecConfig).max_steps scenarioB_registry scenarioB_oracle
        scenarioB_start 0 =
      (3, TurnOutcome.done "28",
       ⟨[⟨Role.user, "What is 20+(2*4)?"⟩,
         ⟨Role.tool, "multiply = 8"⟩,
         ⟨Role.tool, "add = 28"⟩,
         ⟨Role.assistant, "28"⟩], [], ⟨0, TurnState.awaitingOracle⟩⟩) := by
  have hmulQ : ∀ a b : ℚ, (∃ m e : ℤ, |m| < 2 ^ 53 ∧ a * b = (m : ℚ) * 2 ^ e) →
      multiply a b = a * b := by
    rintro a b ⟨m, e, hm, heq⟩
    show roundDouble (a * b) = a * b
    rw [heq, roundDouble_eq_self m e hm]
  have haddQ : ∀ a b : ℚ, (∃ m e : ℤ, |m| < 2 ^ 53 ∧ a + b = (m : ℚ) * 2 ^ e) →
      add a b = a + b := by
    rintro a b ⟨m, e, hm, heq⟩
    show roundDouble (a + b) = a + b
    rw [heq, roundDouble_eq_self m e hm]
  have hmulZ : ∀ a b : ℤ, |a * b| < 2 ^ 53 →
      multiply (a : ℚ) (b : ℚ) = ((a * b : ℤ) : ℚ) := by
    intro a b h
    have heq : (a : ℚ) * (b : ℚ) = ((a * b : ℤ) : ℚ) * 2 ^ (0 : ℤ) := by
      push_cast
      ring
    rw [hmulQ _ _ ⟨a * b, 0, h, heq⟩, heq, zpow_zero, mul_one]
  have haddZ : ∀ a b : ℤ, |a + b| < 2 ^ 53 →
      add (a : ℚ) (b : ℚ) = ((a + b : ℤ) : ℚ) := by
    intro a b h
    have heq : (a : ℚ) + (b : ℚ) = ((a + b : ℤ) : ℚ) * 2 ^ (0 : ℤ) := by
      push_cast
      ring
    rw [haddQ _ _ ⟨a + b, 0, h, heq⟩, heq, zpow_zero, mul_one]
  have h24 : multiply 2 4 = (8 : ℚ) := by
    have := hmulZ 2 4 (by norm_num)
    push_cast at this
    exact this
  have h28 : add 20 8 = (28 : ℚ) := by
    have := haddZ 20 8 (by norm_num)
    push_cast at this
    exact this
  have h2028 : add 20 (multiply 2 4) = (28 : ℚ) := by rw [h24, h28]
  refine ⟨hmulQ, haddQ, hmulZ, haddZ, h24, h28, h2028, ?_⟩
  have hm : multiply_handler [("a", Json.num 2), ("b", Json.num 4)] [] =
      some ([], Json.num 8) := by
    simp [multiply_handler, dictGet, h24]
  have ha : add_handler [("a", Json.num 20), ("b", Json.num 8)] [] =
      some ([], Json.num 28) := by
    simp [add_handler, dictGet, h28]
  have hne : ¬("multiply" = "add") := by decide
  simp only [ExecConfig.max_steps, runTurn, scenarioB_oracle, scenarioB_start,
    scenarioB_registry, dispatchBatch, regResolve, List.foldl]
  norm_num [hm, ha, hne, appendMsg, renderJson]
  decide

/-- Witness for the amended C7: exactness discharged at the concrete
integer pair (20, 8). -/
theorem arithmetic_tools_float_exactness_witness :
    add ((20 : ℤ) : ℚ) ((8 : ℤ) : ℚ) = (((20 + 8 : ℤ)) : ℚ) :=
  arithmetic_tools_float_exactness.2.2.2.1 20 8 (by decide)

/-- Iteration-count bound of the Turn Executor loop: the number of
`AWAITING_ORACLE` entries never exceeds `maxSteps`. -/
theorem runTurn_entries_le (maxSteps : Nat) (reg : Registry) :
    ∀ (oracle : List OracleResponse) (ctx : Context) (entries : Nat),
      entries ≤ maxSteps → (runTurn maxSteps reg oracle ctx entries).1 ≤ maxSteps := by
  intro oracle
  induction oracle with
  | nil =>
      intro ctx entries h
      by_cases hle : maxSteps ≤ entries <;> simp [runTurn, hle] <;> omega
  | cons hd tl ih =>
      intro ctx entries h
      cases hd with
      | final t =>
          by_cases hle : maxSteps ≤ entries <;> simp [runTurn, hle] <;> omega
      | tools calls =>
          by_cases hle : maxSteps ≤ entries
          · simp [runTurn, hle]; omega
          · simp only [runTurn, if_neg hle]
            exact ih _ (entries + 1) (by omega)

/-- An oracle that never produces a final answer drives the turn into the
step limit: once enough tool batches have been consumed, the attempt that
would exceed `maxSteps` fails with `StepLimitExceeded`. -/
theorem runTurn_tools_step_limit (maxSteps : Nat) (reg : Registry) :
    ∀ (oracle : List OracleResponse) (ctx : Context) (entries : Nat),
      (∀ r ∈ oracle, isToolBatch r = true) →
      maxSteps ≤ entries + oracle.length →
      (runTurn maxSteps reg oracle ctx entries).2.1 =
        TurnOutcome.failed TurnError.stepLimitExceeded := by
  intro oracle
  induction oracle with
  | nil =>
      intro ctx entries _ hlen
      simp only [List.length_nil, Nat.add_zero] at hlen
      simp [runTurn, hlen]
  | cons hd tl ih =>
      intro ctx entries hall hlen
      cases hd with
      | final t =>
          exact absurd (hall _ (List.mem_cons_self _ _)) (by simp [isToolBatch])
      | tools calls =>
          by_cases hle : maxSteps ≤ entries
          · simp [runTurn, hle]
          · simp only [runTurn, if_neg hle]
            refine ih _ (entries + 1) (fun r hr => hall r (List.mem_cons_of_mem _ hr)) ?_
            simp only [List.length_cons] at hlen
            omega

/-- C8 -- `max_steps` defaults to 10; the executor enters `AWAITING_ORACLE`
at most `maxSteps` times per turn, and an oracle that keeps requesting tools
for at least `maxSteps` rounds deterministically ends the turn FAILED with
`StepLimitExceeded`. -/
theorem step_limit_enforced :
    ({} : ExecConfig).max_steps = 10 ∧
    (∀ (maxSteps : Nat) (reg : Registry) (oracle : List OracleResponse) (ctx : Context),
      (runTurn maxSteps reg oracle ctx 0).1 ≤ maxSteps) ∧
    (∀ (maxSteps : Nat) (reg : Registry) (oracle : List OracleResponse) (ctx : Context),
      (∀ r ∈ oracle, isToolBatch r = true) →
      maxSteps ≤ oracle.length →
      (runTurn maxSteps reg oracle ctx 0).2.1 =
        TurnOutcome.failed TurnError.stepLimitExceeded) :=
  ⟨rfl,
   fun maxSteps reg oracle ctx =>
     runTurn_entries_le maxSteps reg oracle ctx 0 (Nat.zero_le _),
   fun maxSteps reg oracle ctx hall hlen =>
     runTurn_tools_step_limit maxSteps reg oracle ctx 0 hall
       (by simpa using hlen)⟩

/-- Witness for C8: ten tool-only oracle rounds with the default limit of
10 end in `StepLimitExceeded`. -/
theorem step_limit_enforced_witness :
    (runTurn 10 [] (List.replicate 10 (OracleResponse.tools [])) freshContext 0).2.1 =
      TurnOutcome.failed TurnError.stepLimitExceeded :=
  step_limit_enforced.2.2 10 [] (List.replicate 10 (OracleResponse.tools []))
    freshContext (by decide) (by decide)

/-- The Python `str.lower()` method, applied character by character. -/
def pyLower (s : String) : String :=
  String.mk (s.data.map Char.toLower)

/-- The exit test of the chat loop, from the source:
`user_msg.lower() in ["exit", "quit"]`. -/
def isExitCmd (s : String) : Bool :=
  ["exit", "quit"].contains (pyLower s)

/-- Observable events of the chat loop: reading a user input, running the
workflow on it, saving the context to durable storage. -/
inductive Event where
  | read (msg : String)
  | turn (msg : String)
  | save
deriving DecidableEq

/-- The chat loop of `3_state.py` / `3a_tools_and_state.py`, as the trace
of events it performs on a finite script of user inputs. Each iteration
reads an input; an exit command saves and breaks; any other input runs the
workflow (mutating the context via `step`) and then saves. -/
def chat_loop (step : Context → String → Context) :
    List String → Context → List Event
  | [], _ => []
  | msg :: rest, ctx =>
      if isExitCmd msg then
        [Event.read msg, Event.save]
      else
        Event.read msg :: Event.turn msg :: Event.save ::
          chat_loop step rest (step ctx msg)

/-- Scanning forward from here, a save occurs before any read. -/
def seesSaveFirst : List Event → Bool
  | [] => false
  | Event.save :: _ => true
  | Event.read _ :: _ => false
  | Event.turn _ :: rest => seesSaveFirst rest

/-- After every workflow run in the trace, a save occurs before the next
read of user input. -/
def savedBeforeNextRead : List Event → Bool
  | [] => true
  | Event.turn _ :: rest => seesSaveFirst rest && savedBeforeNextRead rest
  | _ :: rest => savedBeforeNextRead rest

/-- C5 -- In every iteration of the chat loop, the context is saved after
the turn completes and before the next user input is read, and a session
that ends (by exit command or by exhausting its inputs after a turn) ends
on a save; hence the durable record reflects the most recently completed
turn. -/
theorem turn_saved_before_next_input (step : Context → String → Context)
    (inputs : List String) :
    ∀ ctx : Context,
      savedBeforeNextRead (chat_loop step inputs ctx) = true ∧
      (chat_loop step inputs ctx = [] ∨
        (chat_loop step inputs ctx).getLast? = some Event.save) := by
  induction inputs with
  | nil => intro ctx; exact ⟨rfl, Or.inl rfl⟩
  | cons msg rest ih =>
      intro ctx
      by_cases hexit : isExitCmd msg
      · simp [chat_loop, hexit, savedBeforeNextRead]
      · obtain ⟨ih₁, ih₂⟩ := ih (step ctx msg)
        constructor
        · simp [chat_loop, hexit, savedBeforeNextRead, seesSaveFirst, ih₁]
        · right
          rcases ih₂ with h0 | h0
          · simp [chat_loop, hexit, h0]
          · simp only [chat_loop, if_neg hexit]
            rcases hne : chat_loop step rest (step ctx msg) with _ | ⟨e, es⟩
            · simp [hne] at h0
            · rw [hne] at h0
              simpa [List.getLast?_cons_cons] using h0

/-- C10 -- The termination test of the chat loop is case-insensitive and exact:
an input whose lowercased form equals "exit" or "quit" makes the loop save
and terminate without running the workflow; any other input (including
" exit" with whitespace) runs a turn instead; and the test is exactly
membership of the lowercased input in ["exit", "quit"]. -/
theorem exit_test_case_insensitive_exact (step : Context → String → Context)
    (inputs : List String) (ctx : Context) (msg : String) :
    (isExitCmd msg = true →
      chat_loop step (msg :: inputs) ctx = [Event.read msg, Event.save]) ∧
    (isExitCmd msg = false →
      chat_loop step (msg :: inputs) ctx =
        Event.read msg :: Event.turn msg :: Event.save ::
          chat_loop step inputs (step ctx msg)) ∧
    isExitCmd msg = (pyLower msg == "exit" || pyLower msg == "quit") := by
  refine ⟨fun h => by simp [chat_loop, h], fun h => by simp [chat_loop, h], ?_⟩
  simp only [isExitCmd, List.contains, List.elem]
  rcases hx : pyLower msg == "exit" with _ | _
  · rcases hq : pyLower msg == "quit" with _ | _
    · simp [BEq.comm, hx, hq]
    · simp [BEq.comm, hx, hq]
  · simp [BEq.comm, hx]

/-- Witness for C10: "EXIT" terminates the loop with a save and no turn;
" exit" (leading whitespace) runs a turn instead. -/
theorem exit_test_case_insensitive_exact_witness :
    chat_loop (fun c _ => c) ["EXIT"] freshContext =
      [Event.read "EXIT", Event.save] ∧
    chat_loop (fun c _ => c) [" exit"] freshContext =
      [Event.read " exit", Event.turn " exit", Event.save] := by
  constructor
  · exact (exit_test_case_insensitive_exact (fun c _ => c) [] freshContext "EXIT").1
      (by decide)
  · have h := (exit_test_case_insensitive_exact (fun c _ => c) [] freshContext " exit").2.1
      (by decide)
    simpa [chat_loop] using h

/-- Render a role as JSON. -/
def renderRole : Role → String
  | Role.user => "\x22user\x22"
  | Role.assistant => "\x22assistant\x22"
  | Role.tool => "\x22tool\x22"

/-- Render one message as a JSON object. -/
def renderMessage (m : Message) : String :=
  "\x7b\x22role\x22: " ++ renderRole m.role ++
    ", \x22content\x22: \x22" ++ m.content ++ "\x22\x7d"

/-- Render a state mapping as a JSON object. -/
def renderState (st : StateMap) : String :=
  "\x7b" ++ String.intercalate ", "
    (st.map (fun kv => "\x22" ++ kv.1 ++ "\x22: " ++ renderJson kv.2)) ++ "\x7d"

/-- Render a turn status as a JSON string. -/
def renderTurnState : TurnState → String
  | TurnState.awaitingOracle => "\x22AWAITING_ORACLE\x22"
  | TurnState.executingTools => "\x22EXECUTING_TOOLS\x22"
  | TurnState.streamingFinal => "\x22STREAMING_FINAL\x22"
  | TurnState.done => "\x22DONE\x22"
  | TurnState.failed => "\x22FAILED\x22"

/-- Render the metadata as a JSON object. -/
def renderMetadata (md : Metadata) : String :=
  "\x7b\x22iterations\x22: " ++ toString md.iterationCount ++
    ", \x22status\x22: " ++ renderTurnState md.turnStatus ++ "\x7d"

/-- The serialized text `json.dump` writes to `history.json` for a record:
the versioned JSON object. -/
def renderRecord (r : Record) : String :=
  "\x7b\x22version\x22: \x22" ++ r.version ++
    "\x22, \x22messages\x22: [" ++
    String.intercalate ", " (r.messages.map renderMessage) ++
    "], \x22state\x22: " ++ renderState r.state ++
    ", \x22metadata\x22: " ++ renderMetadata r.metadata ++ "\x7d"

/-- Durable contents of `history.json` observable if `save_context` is
interrupted at any point: the prior contents (before the truncating
`open(HISTORY_FILE, "w")`), and every prefix of the new serialization
(truncation writes the bytes sequentially, starting from the empty file). -/
def saveStates (prior : List Char) (r : Record) : List (List Char) :=
  prior ::
    (List.range ((renderRecord r).data.length + 1)).map
      (fun k => (renderRecord r).data.take k)

/-- The atomicity property claimed by the spec: every durable content
observable during or after a (possibly interrupted) `save_context` is
either the prior record or the complete new record. -/
def save_is_atomic : Prop :=
  ∀ (prior : List Char) (r : Record),
    ∀ s ∈ saveStates prior r, s = prior ∨ s = (renderRecord r).data

/-- A concrete prior durable record: one message, name set. -/
def sampleRecordA : Record :=
  ⟨CONTEXT_VERSION, [⟨Role.user, "call me Ayan"⟩],
   [("name", Json.str "Ayan")], ⟨1, TurnState.done⟩⟩

/-- A concrete record being saved over the prior one. -/
def sampleRecordB : Record :=
  ⟨CONTEXT_VERSION, [], [("name", Json.str "unset")], ⟨0, TurnState.done⟩⟩

/-- The empty file is always among the observable interrupted states of a
save: `open(..., "w")` truncates before any byte is written. -/
theorem nil_mem_saveStates (prior : List Char) (r : Record) :
    ([] : List Char) ∈ saveStates prior r :=
  List.mem_cons_of_mem _
    (List.mem_map.mpr ⟨0, List.mem_range.mpr (Nat.succ_pos _), rfl⟩)

/-- C4 counterexample -- `save_context` is not atomic: interrupting the
write of `sampleRecordB` over the durable `sampleRecordA` just after the
truncating open leaves an empty `history.json`, which is neither the prior
record nor the new one. -/
theorem save_context_not_atomic : ¬ save_is_atomic := by
  intro h
  rcases h (renderRecord sampleRecordA).data sampleRecordB []
      (nil_mem_saveStates _ _) with h0 | h0
  · exact absurd h0 (by decide)
  · exact absurd h0 (by decide)

/-- C4 amended -- an uninterrupted `save_context` fully replaces the prior
durable record with the new serialization, but an interrupted one can leave
behind any prefix of the new serialization (a half-written record). -/
theorem save_context_overwrites_or_truncates (prior : List Char) (r : Record) :
    (saveStates prior r).getLast? = some (renderRecord r).data ∧
    ∀ s ∈ saveStates prior r,
      s = prior ∨ ∃ k, s = (renderRecord r).data.take k := by
  constructor
  · simp only [saveStates, List.range_succ, List.map_append, List.map_cons,
      List.map_nil]
    rw [← List.cons_append, List.getLast?_concat, List.take_length]
  · intro s hs
    rcases List.mem_cons.mp hs with h0 | h0
    · exact Or.inl h0
    · rcases List.mem_map.mp h0 with ⟨k, _, hk⟩
      exact Or.inr ⟨k, hk.symm⟩

/-- Witness for the amended C4 at the empty interrupted state. -/
theorem save_context_overwrites_or_truncates_witness :
    ([] : List Char) = (renderRecord sampleRecordA).data ∨
      ∃ k, ([] : List Char) = (renderRecord sampleRecordB).data.take k :=
  (save_context_overwrites_or_truncates (renderRecord sampleRecordA).data
    sampleRecordB).2 [] (nil_mem_saveStates _ _)

end LlamaTut
